import Mathlib

/-!
Shallow embedding of the algorithmic core of `src/src/core.ts`:
the recursive content extractor `extractContentRecursively` and the
batched output writer (`write` / `addContentOrSplit` / `writeBatchToFile`).
-/

set_option maxRecDepth 4000

/-! JSON values, mirroring the untyped data the TypeScript code manipulates.
Arrays and objects are modelled with a mutual inductive so that all
functions below are structurally recursive (and hence kernel-evaluable).
Object fields keep insertion order, as JavaScript objects do. -/

mutual

inductive Json where
  | null : Json
  | bool : Bool → Json
  | num : Int → Json
  | str : String → Json
  | arr : JsonList → Json
  | obj : JsonFields → Json
deriving DecidableEq

inductive JsonList where
  | nil : JsonList
  | cons : Json → JsonList → JsonList
deriving DecidableEq

inductive JsonFields where
  | nil : JsonFields
  | cons : String → Json → JsonFields → JsonFields
deriving DecidableEq

end

/-- Model of the byte length of a string in UTF-8, i.e. of
`Buffer.byteLength(str, "utf-8")` (`getStringByteSize` in core.ts). -/
def getStringByteSize (s : String) : Nat :=
  (s.data.map Char.utf8Size).sum

/-- Escape of one character inside a JSON string literal, as produced by
`JSON.stringify` (quote, backslash, control characters). -/
def escChar (c : Char) : String :=
  if c.toNat = 34 then "\\\""
  else if c.toNat = 92 then "\\\\"
  else if c.toNat = 10 then "\\n"
  else if c.toNat = 13 then "\\r"
  else if c.toNat = 9 then "\\t"
  else if c.toNat = 8 then "\\b"
  else if c.toNat = 12 then "\\f"
  else if c.toNat < 32 then
    "\\u00" ++ String.mk [Nat.digitChar (c.toNat / 16), Nat.digitChar (c.toNat % 16)]
  else String.singleton c

/-- Escape of a list of characters, concatenated. -/
def escapeList : List Char → String
  | [] => ""
  | c :: cs => escChar c ++ escapeList cs

/-- The JSON string literal for `s`, double quotes included. -/
def quoteJson (s : String) : String :=
  "\"" ++ escapeList s.data ++ "\""

mutual

/-- Compact serialization, the model of `JSON.stringify(v)` (no spacing). -/
def Json.stringify : Json → String
  | .null => "null"
  | .bool true => "true"
  | .bool false => "false"
  | .num n => toString n
  | .str s => quoteJson s
  | .arr xs => "[" ++ JsonList.stringifyElems xs ++ "]"
  | .obj fs => "\x7b" ++ JsonFields.stringifyKVs fs ++ "\x7d"

/-- Comma-separated compact serialization of array elements. -/
def JsonList.stringifyElems : JsonList → String
  | .nil => ""
  | .cons x .nil => Json.stringify x
  | .cons x (JsonList.cons y ys) =>
      Json.stringify x ++ "," ++ JsonList.stringifyElems (JsonList.cons y ys)

/-- Comma-separated compact serialization of object fields. -/
def JsonFields.stringifyKVs : JsonFields → String
  | .nil => ""
  | .cons k v .nil => quoteJson k ++ ":" ++ Json.stringify v
  | .cons k v (JsonFields.cons k2 v2 fs) =>
      quoteJson k ++ ":" ++ Json.stringify v ++ "," ++
        JsonFields.stringifyKVs (JsonFields.cons k2 v2 fs)

end

/-! The content extractor (`extractContentRecursively`, core.ts lines 66-122). -/

/-- First field of the given name in an object, i.e. property access `obj.k`
(`none` models JavaScript `undefined`). -/
def JsonFields.lookup (k : String) : JsonFields → Option Json
  | .nil => none
  | .cons k2 v fs => if k2 = k then some v else JsonFields.lookup k fs

/-- True exactly for the values the extractor recurses into: JavaScript
`obj && typeof obj === "object"`, i.e. arrays and (non-null) objects. -/
def Json.isComposite : Json → Bool
  | .arr _ => true
  | .obj _ => true
  | _ => false

/-- JavaScript truthiness of a field value (`none` = absent/undefined). -/
def jsTruthy : Option Json → Bool
  | none => false
  | some Json.null => false
  | some (Json.bool b) => b
  | some (Json.num n) => n != 0
  | some (Json.str s) => s != ""
  | some (Json.arr _) => true
  | some (Json.obj _) => true

mutual

/-- JavaScript string conversion `String(v)` (used by the template literal
of the href label in core.ts line 99). -/
def jsToString : Json → String
  | .null => "null"
  | .bool true => "true"
  | .bool false => "false"
  | .num n => toString n
  | .str s => s
  | .arr xs => JsonList.jsJoin xs
  | .obj _ => "[object Object]"

/-- Array-to-string join with commas; `null` elements become empty. -/
def JsonList.jsJoin : JsonList → String
  | .nil => ""
  | .cons Json.null .nil => ""
  | .cons x .nil => jsToString x
  | .cons Json.null (JsonList.cons y ys) =>
      "," ++ JsonList.jsJoin (JsonList.cons y ys)
  | .cons x (JsonList.cons y ys) =>
      jsToString x ++ "," ++ JsonList.jsJoin (JsonList.cons y ys)

end

/-- Leading whitespace removed from a character list. -/
def trimLeftChars : List Char → List Char
  | [] => []
  | c :: cs => if c.isWhitespace then trimLeftChars cs else c :: cs

/-- Model of JavaScript `String.prototype.trim`: whitespace stripped from
both ends. -/
def jsTrim (s : String) : String :=
  String.mk ((trimLeftChars (trimLeftChars s.data.reverse).reverse))

/-- Label of an href fragment: the template-literal part
obj.text-or-Link of core.ts line 99. -/
def hrefLabel (tfield : Option Json) : String :=
  if jsTruthy tfield then jsToString (tfield.getD Json.null) else "Link"

/-- One conditional emission step of the extractor: emit `frag` and mark
`val` as seen when the guard holds and `val` was not seen before; otherwise
leave the seen set unchanged.  This is the shape shared by the three
`if (obj.f && typeof obj.f === "string" && !seen.has(...))` blocks of
core.ts lines 84-107. -/
def emitStep {α : Type} (frag : α) (val : String) (ok : Bool)
    (seen : List String) : List α × List String :=
  if ok ∧ val ∉ seen then ([frag], val :: seen) else ([], seen)

/-- Text block of the extractor (core.ts lines 84-91): a truthy string
`text` field emits its trimmed value when that value is unseen. -/
def textPhase (tfield : Option Json) (seen : List String) :
    List String × List String :=
  match tfield with
  | some (Json.str t) => emitStep (jsTrim t) (jsTrim t) (t != "") seen
  | _ => ([], seen)

/-- Href block of the extractor (core.ts lines 93-101): a truthy string
`href` field emits `<text-or-Link>: <href>` when the href is unseen. -/
def hrefPhase (tfield hfield : Option Json) (seen : List String) :
    List String × List String :=
  match hfield with
  | some (Json.str h) => emitStep (hrefLabel tfield ++ ": " ++ h) h (h != "") seen
  | _ => ([], seen)

/-- Src block of the extractor (core.ts lines 103-107): a truthy string
`src` field emits `Image: <src>` when the src is unseen. -/
def srcPhase (sfield : Option Json) (seen : List String) :
    List String × List String :=
  match sfield with
  | some (Json.str u) => emitStep ("Image: " ++ u) u (u != "") seen
  | _ => ([], seen)

mutual

/-- Model of `extractContentRecursively` (core.ts lines 66-122).  The
mutable `Set<string>` is threaded explicitly as a list of strings; the
result is the fragment list together with the final seen set. -/
def extractContentRecursively : Json → List String → List String × List String
  | Json.arr xs, seen =>
    -- arrays are composite; they have no text/href/src properties
    let objKey := Json.stringify (Json.arr xs)
    if objKey ∈ seen then ([], seen)
    else
      let seen0 := objKey :: seen
      -- obj.forEach(item => ...) over the elements
      let p1 := JsonList.extractElems xs seen0
      -- Object.values(obj).forEach over an array visits the elements again
      let p2 := JsonList.extractElems xs p1.2
      (p1.1 ++ p2.1, p2.2)
  | Json.obj fs, seen =>
    let objKey := Json.stringify (Json.obj fs)
    if objKey ∈ seen then ([], seen)
    else
      let seen0 := objKey :: seen
      let tfield := JsonFields.lookup ("text") fs
      let pt := textPhase tfield seen0
      let ph := hrefPhase tfield (JsonFields.lookup ("href") fs) pt.2
      let pi := srcPhase (JsonFields.lookup ("src") fs) ph.2
      -- Object.values(obj).forEach over the property values
      let pc := JsonFields.extractVals fs pi.2
      (pt.1 ++ ph.1 ++ pi.1 ++ pc.1, pc.2)
  | _, seen => ([], seen)  -- non-composites are ignored (core.ts line 72)

/-- Extraction over array elements in order, threading the seen set. -/
def JsonList.extractElems : JsonList → List String → List String × List String
  | .nil, seen => ([], seen)
  | .cons x xs, seen =>
    let p1 := extractContentRecursively x seen
    let p2 := JsonList.extractElems xs p1.2
    (p1.1 ++ p2.1, p2.2)

/-- Extraction over object property values in order, threading the seen set. -/
def JsonFields.extractVals : JsonFields → List String → List String × List String
  | .nil, seen => ([], seen)
  | .cons _ v fs, seen =>
    let p1 := extractContentRecursively v seen
    let p2 := JsonFields.extractVals fs p1.2
    (p1.1 ++ p2.1, p2.2)

end

/-! Instrumented extractor: identical control flow, but each fragment is
kept together with the field value it originates from, so that the
provenance invariant (no two fragments from one text/href/src value) can
be stated.  An erasure lemma below links it to the plain extractor. -/

/-- Provenance of one fragment: the trimmed text value, the (label, href)
pair, or the src value. -/
inductive Orig where
  | otext : String → Orig
  | ohref : String → String → Orig
  | osrc : String → Orig
deriving DecidableEq

/-- The value a fragment originates from (what the code adds to `seen`). -/
def Orig.value : Orig → String
  | .otext v => v
  | .ohref _ u => u
  | .osrc u => u

/-- The fragment text produced for a provenance entry. -/
def Orig.render : Orig → String
  | .otext v => v
  | .ohref l u => l ++ ": " ++ u
  | .osrc u => "Image: " ++ u

/-- Tagged version of `textPhase`. -/
def textPhaseT (tfield : Option Json) (seen : List String) :
    List Orig × List String :=
  match tfield with
  | some (Json.str t) => emitStep (Orig.otext (jsTrim t)) (jsTrim t) (t != "") seen
  | _ => ([], seen)

/-- Tagged version of `hrefPhase`. -/
def hrefPhaseT (tfield hfield : Option Json) (seen : List String) :
    List Orig × List String :=
  match hfield with
  | some (Json.str h) =>
      emitStep (Orig.ohref (hrefLabel tfield) h) h (h != "") seen
  | _ => ([], seen)

/-- Tagged version of `srcPhase`. -/
def srcPhaseT (sfield : Option Json) (seen : List String) :
    List Orig × List String :=
  match sfield with
  | some (Json.str u) => emitStep (Orig.osrc u) u (u != "") seen
  | _ => ([], seen)

mutual

/-- The extractor with provenance: same recursion and seen-set evolution as
`extractContentRecursively`, fragments tagged by origin. -/
def extractTagged : Json → List String → List Orig × List String
  | Json.arr xs, seen =>
    let objKey := Json.stringify (Json.arr xs)
    if objKey ∈ seen then ([], seen)
    else
      let seen0 := objKey :: seen
      let p1 := JsonList.extractElemsT xs seen0
      let p2 := JsonList.extractElemsT xs p1.2
      (p1.1 ++ p2.1, p2.2)
  | Json.obj fs, seen =>
    let objKey := Json.stringify (Json.obj fs)
    if objKey ∈ seen then ([], seen)
    else
      let seen0 := objKey :: seen
      let tfield := JsonFields.lookup ("text") fs
      let pt := textPhaseT tfield seen0
      let ph := hrefPhaseT tfield (JsonFields.lookup ("href") fs) pt.2
      let pi := srcPhaseT (JsonFields.lookup ("src") fs) ph.2
      let pc := JsonFields.extractValsT fs pi.2
      (pt.1 ++ ph.1 ++ pi.1 ++ pc.1, pc.2)
  | _, seen => ([], seen)

/-- Tagged extraction over array elements. -/
def JsonList.extractElemsT : JsonList → List String → List Orig × List String
  | .nil, seen => ([], seen)
  | .cons x xs, seen =>
    let p1 := extractTagged x seen
    let p2 := JsonList.extractElemsT xs p1.2
    (p1.1 ++ p2.1, p2.2)

/-- Tagged extraction over object property values. -/
def JsonFields.extractValsT : JsonFields → List String → List Orig × List String
  | .nil, seen => ([], seen)
  | .cons _ v fs, seen =>
    let p1 := extractTagged v seen
    let p2 := JsonFields.extractValsT fs p1.2
    (p1.1 ++ p2.1, p2.2)

end

/-! Pretty serialization, the model of `JSON.stringify(v, null, 2)` used
when a batch is written to a file (core.ts line 259). -/

/-- Indentation of `2*d` spaces for nesting depth `d`. -/
def indentStr (d : Nat) : String :=
  String.mk (List.replicate (2 * d) ' ')

mutual

/-- Pretty serialization of a value at nesting depth `d`. -/
def Json.pretty (d : Nat) : Json → String
  | .null => "null"
  | .bool true => "true"
  | .bool false => "false"
  | .num n => toString n
  | .str s => quoteJson s
  | .arr .nil => "[]"
  | .arr (JsonList.cons x xs) =>
      "[\n" ++ JsonList.prettyElems (d + 1) (JsonList.cons x xs) ++
        "\n" ++ indentStr d ++ "]"
  | .obj .nil => "\x7b\x7d"
  | .obj (JsonFields.cons k v fs) =>
      "\x7b\n" ++ JsonFields.prettyKVs (d + 1) (JsonFields.cons k v fs) ++
        "\n" ++ indentStr d ++ "\x7d"

/-- Pretty, indented, comma-and-newline separated array elements. -/
def JsonList.prettyElems (d : Nat) : JsonList → String
  | .nil => ""
  | .cons x .nil => indentStr d ++ Json.pretty d x
  | .cons x (JsonList.cons y ys) =>
      indentStr d ++ Json.pretty d x ++ ",\n" ++
        JsonList.prettyElems d (JsonList.cons y ys)

/-- Pretty, indented object fields (`"key": value`). -/
def JsonFields.prettyKVs (d : Nat) : JsonFields → String
  | .nil => ""
  | .cons k v .nil => indentStr d ++ quoteJson k ++ ": " ++ Json.pretty d v
  | .cons k v (JsonFields.cons k2 v2 fs) =>
      indentStr d ++ quoteJson k ++ ": " ++ Json.pretty d v ++ ",\n" ++
        JsonFields.prettyKVs d (JsonFields.cons k2 v2 fs)

end

/-- Pretty serialization of the top-level batch array written to a file:
`JSON.stringify(currentResults, null, 2)` where `currentResults` is the
list of accumulated records. -/
def prettyRecordsAux : List Json → String
  | [] => ""
  | [r] => indentStr 1 ++ Json.pretty 1 r
  | r :: r2 :: rs => indentStr 1 ++ Json.pretty 1 r ++ ",\n" ++ prettyRecordsAux (r2 :: rs)

/-- File content for a batch of records (empty batches give `[]`). -/
def prettyRecords : List Json → String
  | [] => "[]"
  | r :: rs => "[\n" ++ prettyRecordsAux (r :: rs) ++ "\n]"

/-! The batched output writer (`write`, core.ts lines 234-314).  The token
counter of the external `gpt-tokenizer` package is a parameter `tc`;
`isWithinTokenLimit` wraps it with the package's contract: the numeric
count when it is within the limit, otherwise the sentinel (`none`,
modelling the library's `false`). -/

/-- Configuration fields consumed by `write`.  `maxBytes` is the byte
ceiling `config.maxFileSize * 1024 * 1024` (`none` when `maxFileSize` is
absent, i.e. `Infinity`); `maxTokens` mirrors `config.maxTokens`. -/
structure WriteConfig where
  maxBytes : Option Nat
  maxTokens : Option Nat
  outputFileName : String

/-- Mutable state of one `write` run: the current batch, its byte counter,
the file counter, the running token estimate, the batches already written
to files (in order), and `nextFileNameString`. -/
structure WriterState where
  currentResults : List Json
  currentSize : Nat
  fileCounter : Nat
  estimatedTokens : Nat
  files : List (List Json)
  lastFileName : String
deriving DecidableEq

/-- The token limit actually passed to the tokenizer:
`config.maxTokens || Infinity`, so an absent or zero `maxTokens` becomes
no limit (`none`). -/
def tokenLimitOf (cfg : WriteConfig) : Option Nat :=
  match cfg.maxTokens with
  | none => none
  | some t => if t = 0 then none else some t

/-- Model of `isWithinTokenLimit(contentString, limit)`: the token count
when it does not exceed the limit, otherwise the sentinel `none`. -/
def isWithinTokenLimit (tc : String → Nat) (s : String) (limit : Option Nat) :
    Option Nat :=
  match limit with
  | none => some (tc s)
  | some l => if tc s ≤ l then some (tc s) else none

/-- The overflow test `estimatedTokens + tokenCount > config.maxTokens!`.
When `maxTokens` is absent the JavaScript comparison with `undefined` is
false. -/
def tokenOverflow (cfg : WriteConfig) (est cnt : Nat) : Bool :=
  match cfg.maxTokens with
  | none => false
  | some t => est + cnt > t

/-- The byte-ceiling test `currentSize > maxBytes` (false when the ceiling
is `Infinity`). -/
def byteOverflow (cfg : WriteConfig) (size : Nat) : Bool :=
  match cfg.maxBytes with
  | none => false
  | some b => size > b

/-- Strip a trailing `.json` from the output file name stem
(the `replace(/\.json$/, "")` of core.ts line 253). -/
def stripJsonSuffix (s : String) : String :=
  if (".json").data.reverse.isPrefixOf s.data.reverse then
    String.mk (s.data.take (s.data.length - 5))
  else s

/-- Next output file name, `<stem>-<fileCounter>.json`. -/
def nextFileName (cfg : WriteConfig) (counter : Nat) : String :=
  stripJsonSuffix cfg.outputFileName ++ "-" ++ toString counter ++ ".json"

/-- Model of `writeBatchToFile` (core.ts lines 255-267): record the batch
as a written file, clear the batch and its byte counter, advance the file
counter.  The token estimate is untouched. -/
def writeBatchToFile (cfg : WriteConfig) (s : WriterState) : WriterState :=
  { currentResults := []
    currentSize := 0
    fileCounter := s.fileCounter + 1
    estimatedTokens := s.estimatedTokens
    files := s.files ++ [s.currentResults]
    lastFileName := nextFileName cfg s.fileCounter }

/-- Token-accounting phase of `addContentOrSplit` (core.ts lines 274-293):
when the tokenizer returns a numeric count, either append the record and
add the count, or — on overflow — flush a non-empty batch, halve the
count into the estimate and append the record; the sentinel leaves the
state untouched. -/
def tokenStep (cfg : WriteConfig) (tc : String → Nat) (s : WriterState)
    (data : Json) : WriterState :=
  match isWithinTokenLimit tc (Json.stringify data) (tokenLimitOf cfg) with
  | some cnt =>
    if tokenOverflow cfg s.estimatedTokens cnt then
      let s1 := if s.currentResults.length > 0 then writeBatchToFile cfg s else s
      { s1 with
        estimatedTokens := cnt / 2
        currentResults := s1.currentResults ++ [data] }
    else
      { s with
        currentResults := s.currentResults ++ [data]
        estimatedTokens := s.estimatedTokens + cnt }
  | none => s

/-- Byte-accounting phase of `addContentOrSplit` (core.ts lines 295-298):
add the record's serialized byte length to the byte counter and flush when
the byte ceiling is exceeded. -/
def byteStep (cfg : WriteConfig) (s : WriterState) (contentSize : Nat) :
    WriterState :=
  let s1 := { s with currentSize := s.currentSize + contentSize }
  if byteOverflow cfg s1.currentSize then writeBatchToFile cfg s1 else s1

/-- Model of `addContentOrSplit` (core.ts lines 271-299): the token phase
followed by the byte phase, both over the record's compact serialization. -/
def addContentOrSplit (cfg : WriteConfig) (tc : String → Nat)
    (s : WriterState) (data : Json) : WriterState :=
  byteStep cfg (tokenStep cfg tc s data) (getStringByteSize (Json.stringify data))

/-- Initial writer state (core.ts lines 235-269). -/
def initWriterState : WriterState :=
  { currentResults := []
    currentSize := 0
    fileCounter := 1
    estimatedTokens := 0
    files := []
    lastFileName := "" }

/-- Model of `write` (core.ts lines 234-314): fold `addContentOrSplit`
over the records read from the intermediate files, then flush a final
non-empty batch. -/
def write (cfg : WriteConfig) (tc : String → Nat) (inputs : List Json) :
    WriterState :=
  let s := inputs.foldl (addContentOrSplit cfg tc) initWriterState
  if s.currentResults.length > 0 then writeBatchToFile cfg s else s

/-- Contents of the written files, in order: each batch pretty-printed as
a JSON array. -/
def writtenContents (s : WriterState) : List String :=
  s.files.map prettyRecords

/-- Total compact serialized byte size of the records of a batch. -/
def batchBytes (b : List Json) : Nat :=
  (b.map (fun d => getStringByteSize (Json.stringify d))).sum

/-- Largest compact serialized record size in the input sequence. -/
def maxRecSize (inputs : List Json) : Nat :=
  (inputs.map (fun d => getStringByteSize (Json.stringify d))).foldr max 0

/-! Concrete inputs used by the scenario theorems. -/

/-- The empty JSON object; its compact serialization has 2 bytes. -/
def emptyObj : Json := Json.obj JsonFields.nil

/-- A token counter that reports 0 tokens for every string (the token
ceiling is never exceeded; used where the claim sets no token limit). -/
def tcZero : String → Nat := fun _ => 0

/-- A token counter that reports 100 tokens for every string (every record
exceeds a small token ceiling by itself). -/
def tcBig : String → Nat := fun _ => 100

/-- A string of `n` copies of the letter a. -/
def aStr (n : Nat) : String := String.mk (List.replicate n 'a')

/-- A record whose compact serialization is exactly 100KB (102400 bytes):
a JSON string of 102398 characters plus the two quotes. -/
def bigRecord : Json := Json.str (aStr 102398)

/-- Configuration with no byte ceiling and a token ceiling of 1. -/
def cfgTokenOnly : WriteConfig :=
  { maxBytes := none, maxTokens := some 1, outputFileName := "output.json" }

/-- Configuration of the five-100KB-records scenario: byte ceiling 250KB
(256000 bytes), no token ceiling. -/
def cfg250KB : WriteConfig :=
  { maxBytes := some 256000, maxTokens := none, outputFileName := "output.json" }

/-- Configuration with a 10-byte ceiling and no token ceiling. -/
def cfgTenBytes : WriteConfig :=
  { maxBytes := some 10, maxTokens := none, outputFileName := "output.json" }

/-- Configuration with a 1-byte ceiling and a token ceiling of 1. -/
def cfgTiny : WriteConfig :=
  { maxBytes := some 1, maxTokens := some 1, outputFileName := "output.json" }

/-- The extraction-scenario node with text, href and src fields. -/
def hiNode : Json :=
  Json.obj (JsonFields.cons ("text") (Json.str ("Hi"))
    (JsonFields.cons ("href") (Json.str ("https://x.test"))
      (JsonFields.cons ("src") (Json.str ("https://x.test/img.png"))
        JsonFields.nil)))

/-- A node with an href but no text field. -/
def linkOnlyNode : Json :=
  Json.obj (JsonFields.cons ("href") (Json.str ("https://y.test"))
    JsonFields.nil)

/-- A node carrying only the text field Hello. -/
def helloNode : Json :=
  Json.obj (JsonFields.cons ("text") (Json.str ("Hello")) JsonFields.nil)

/-- A sibling of `helloNode` that differs in one extra field. -/
def helloSrcNode : Json :=
  Json.obj (JsonFields.cons ("text") (Json.str ("Hello"))
    (JsonFields.cons ("src") (Json.str ("u")) JsonFields.nil))

/-- The five-100KB-records input of the writer scenario. -/
def fiveBigRecords : List Json :=
  [bigRecord, bigRecord, bigRecord, bigRecord, bigRecord]

/-- Invariant of the byte accounting: the batch's total compact record
size never exceeds the byte counter, the byte counter never ends a step
above the ceiling `b`, and every written file's records total at most
`b` plus one record bound `m`. -/
def WInv (b m : Nat) (s : WriterState) : Prop :=
  batchBytes s.currentResults ≤ s.currentSize ∧
  s.currentSize ≤ b ∧
  ∀ f ∈ s.files, batchBytes f ≤ b + m

/-- Relation between a pre-seen set, a list of emitted origins and the
post-seen set. -/
def TStep (seen : List String) (os : List Orig) (seen2 : List String) : Prop :=
  (∀ x, x ∈ seen → x ∈ seen2) ∧
  (∀ o, o ∈ os → Orig.value o ∈ seen2 ∧ Orig.value o ∉ seen) ∧
  (os.map Orig.value).Nodup

/-! Byte-size lemmas for the 100KB record, proved by induction instead of
evaluating a hundred-kilobyte string in the kernel. -/

theorem string_data_append (s t : String) : (s ++ t).data = s.data ++ t.data := rfl

theorem gsbs_append (s t : String) :
    getStringByteSize (s ++ t) = getStringByteSize s + getStringByteSize t := by
  simp [getStringByteSize, string_data_append]

theorem gsbs_escape_rep (n : Nat) :
    getStringByteSize (escapeList (List.replicate n 'a')) = n := by
  induction n with
  | zero => decide
  | succ m ih =>
    rw [List.replicate_succ]
    show getStringByteSize (escChar 'a' ++ escapeList (List.replicate m 'a')) = m + 1
    rw [gsbs_append, ih]
    have h1 : getStringByteSize (escChar 'a') = 1 := by decide
    omega

theorem gsbs_bigRecord : getStringByteSize (Json.stringify bigRecord) = 102400 := by
  have h1 : getStringByteSize ("\"") = 1 := by decide
  have e1 : Json.stringify bigRecord =
      "\"" ++ escapeList (List.replicate 102398 'a') ++ "\"" := rfl
  rw [e1, gsbs_append, gsbs_append, gsbs_escape_rep, h1]

/-- One `addContentOrSplit` step of the five-100KB-records scenario,
computed for an arbitrary pre-state given as field values. -/
theorem c2_step (res : List Json) (size fc est : Nat) (fl : List (List Json))
    (lf : String) :
    addContentOrSplit cfg250KB tcZero
      { currentResults := res, currentSize := size, fileCounter := fc,
        estimatedTokens := est, files := fl, lastFileName := lf } bigRecord =
    (if size + 102400 > 256000 then
      { currentResults := [], currentSize := 0, fileCounter := fc + 1,
        estimatedTokens := est,
        files := fl ++ [res ++ [bigRecord]],
        lastFileName := nextFileName cfg250KB fc }
     else
      { currentResults := res ++ [bigRecord], currentSize := size + 102400,
        fileCounter := fc, estimatedTokens := est, files := fl,
        lastFileName := lf }) := by
  unfold addContentOrSplit
  rw [gsbs_bigRecord]
  simp only [tokenStep, byteStep, isWithinTokenLimit, tokenLimitOf,
    tokenOverflow, byteOverflow, writeBatchToFile, cfg250KB, tcZero]
  split_ifs with h1 h2 <;> simp_all

/-- The `write` body, spelled out (definitional). -/
theorem write_unfold (cfg : WriteConfig) (tc : String → Nat)
    (inputs : List Json) :
    write cfg tc inputs =
    (if (List.foldl (addContentOrSplit cfg tc) initWriterState
          inputs).currentResults.length > 0 then
      writeBatchToFile cfg
        (List.foldl (addContentOrSplit cfg tc) initWriterState inputs)
     else List.foldl (addContentOrSplit cfg tc) initWriterState inputs) := rfl

/-- Full trace of the five-100KB-records scenario: the writer flushes the
batch only after the third record has been appended (the byte check runs
after appending), leaving files of 3 and 2 records. -/
theorem write_fiveBigRecords :
    write cfg250KB tcZero fiveBigRecords =
    { currentResults := [], currentSize := 0, fileCounter := 3,
      estimatedTokens := 0,
      files := [[bigRecord, bigRecord, bigRecord], [bigRecord, bigRecord]],
      lastFileName := nextFileName cfg250KB 2 } := by
  have h1 : addContentOrSplit cfg250KB tcZero initWriterState bigRecord =
      { currentResults := [bigRecord], currentSize := 102400, fileCounter := 1,
        estimatedTokens := 0, files := [], lastFileName := "" } := by
    unfold initWriterState
    rw [c2_step, if_neg (by norm_num)]
    norm_num
  have h2 : addContentOrSplit cfg250KB tcZero
      { currentResults := [bigRecord], currentSize := 102400, fileCounter := 1,
        estimatedTokens := 0, files := [], lastFileName := "" } bigRecord =
      { currentResults := [bigRecord, bigRecord], currentSize := 204800,
        fileCounter := 1, estimatedTokens := 0, files := [],
        lastFileName := "" } := by
    rw [c2_step, if_neg (by norm_num)]
    norm_num
  have h3 : addContentOrSplit cfg250KB tcZero
      { currentResults := [bigRecord, bigRecord], currentSize := 204800,
        fileCounter := 1, estimatedTokens := 0, files := [],
        lastFileName := "" } bigRecord =
      { currentResults := [], currentSize := 0, fileCounter := 2,
        estimatedTokens := 0, files := [[bigRecord, bigRecord, bigRecord]],
        lastFileName := nextFileName cfg250KB 1 } := by
    rw [c2_step, if_pos (by norm_num)]
    norm_num
  have h4 : addContentOrSplit cfg250KB tcZero
      { currentResults := [], currentSize := 0, fileCounter := 2,
        estimatedTokens := 0, files := [[bigRecord, bigRecord, bigRecord]],
        lastFileName := nextFileName cfg250KB 1 } bigRecord =
      { currentResults := [bigRecord], currentSize := 102400, fileCounter := 2,
        estimatedTokens := 0, files := [[bigRecord, bigRecord, bigRecord]],
        lastFileName := nextFileName cfg250KB 1 } := by
    rw [c2_step, if_neg (by norm_num)]
    norm_num
  have h5 : addContentOrSplit cfg250KB tcZero
      { currentResults := [bigRecord], currentSize := 102400, fileCounter := 2,
        estimatedTokens := 0, files := [[bigRecord, bigRecord, bigRecord]],
        lastFileName := nextFileName cfg250KB 1 } bigRecord =
      { currentResults := [bigRecord, bigRecord], currentSize := 204800,
        fileCounter := 2, estimatedTokens := 0,
        files := [[bigRecord, bigRecord, bigRecord]],
        lastFileName := nextFileName cfg250KB 1 } := by
    rw [c2_step, if_neg (by norm_num)]
    norm_num
  have hfold : List.foldl (addContentOrSplit cfg250KB tcZero) initWriterState
      fiveBigRecords =
      { currentResults := [bigRecord, bigRecord], currentSize := 204800,
        fileCounter := 2, estimatedTokens := 0,
        files := [[bigRecord, bigRecord, bigRecord]],
        lastFileName := nextFileName cfg250KB 1 } := by
    unfold fiveBigRecords
    rw [List.foldl_cons, h1, List.foldl_cons, h2, List.foldl_cons, h3,
      List.foldl_cons, h4, List.foldl_cons, h5, List.foldl_nil]
  rw [write_unfold, hfold]
  norm_num [writeBatchToFile]

/-- The byte phase never changes the token estimate (flushing keeps it). -/
theorem byteStep_estimatedTokens (cfg : WriteConfig) (s : WriterState)
    (n : Nat) : (byteStep cfg s n).estimatedTokens = s.estimatedTokens := by
  simp only [byteStep, writeBatchToFile]
  split <;> rfl

/-- A numeric result of the token counter is the token count itself. -/
theorem isWithinTokenLimit_some {tc : String → Nat} {s : String}
    {l : Option Nat} {cnt : Nat} (h : isWithinTokenLimit tc s l = some cnt) :
    cnt = tc s := by
  cases l with
  | none =>
    simp [isWithinTokenLimit] at h
    exact h.symm
  | some L =>
    by_cases hle : tc s ≤ L
    · simp [isWithinTokenLimit, hle] at h
      exact h.symm
    · simp [isWithinTokenLimit, hle] at h

/-- Claim C1 (counterexample): for the record `emptyObj` under a token
ceiling of 1 and a token counter reporting 100, the tokenizer returns the
sentinel, yet `write` on this single record produces no output file at all
and leaves no pending batch — the record does not appear in any written
output file, contradicting the claim that a sentinel record is still
appended to the batch. -/
theorem claimC1_counterexample :
    isWithinTokenLimit tcBig (Json.stringify emptyObj)
      (tokenLimitOf cfgTokenOnly) = none ∧
    (write cfgTokenOnly tcBig [emptyObj]).files = [] ∧
    (write cfgTokenOnly tcBig [emptyObj]).currentResults = [] := by decide

/-- Claim C1 (amended): when the token counter returns the sentinel, the
record is NOT appended to the batch — the token phase leaves the writer
state unchanged, and the whole step can only keep the batch as it was or
flush it (on byte overflow); the record itself is dropped. -/
theorem claimC1_amended (cfg : WriteConfig) (tc : String → Nat)
    (s : WriterState) (d : Json)
    (h : isWithinTokenLimit tc (Json.stringify d) (tokenLimitOf cfg) = none) :
    tokenStep cfg tc s d = s ∧
    ((addContentOrSplit cfg tc s d).currentResults = s.currentResults ∨
     (addContentOrSplit cfg tc s d).currentResults = []) ∧
    ((addContentOrSplit cfg tc s d).files = s.files ∨
     (addContentOrSplit cfg tc s d).files = s.files ++ [s.currentResults]) := by
  have ht : tokenStep cfg tc s d = s := by
    unfold tokenStep
    rw [h]
  refine ⟨ht, ?_, ?_⟩ <;>
    · unfold addContentOrSplit
      rw [ht]
      simp only [byteStep, writeBatchToFile]
      split
      · simp
      · simp

/-- Witness for the amended claim C1 at a concrete input. -/
theorem claimC1_witness :
    tokenStep cfgTokenOnly tcBig initWriterState emptyObj = initWriterState ∧
    ((addContentOrSplit cfgTokenOnly tcBig initWriterState
        emptyObj).currentResults = initWriterState.currentResults ∨
     (addContentOrSplit cfgTokenOnly tcBig initWriterState
        emptyObj).currentResults = []) ∧
    ((addContentOrSplit cfgTokenOnly tcBig initWriterState emptyObj).files =
        initWriterState.files ∨
     (addContentOrSplit cfgTokenOnly tcBig initWriterState emptyObj).files =
        initWriterState.files ++ [initWriterState.currentResults]) :=
  claimC1_amended cfgTokenOnly tcBig initWriterState emptyObj (by decide)

/-- Claim C2 (counterexample): on five records of serialized size 100KB
with a 250KB byte ceiling and no token ceiling, the writer does NOT
produce three files of 2, 2 and 1 records. -/
theorem claimC2_counterexample :
    ¬ ((write cfg250KB tcZero fiveBigRecords).files.map List.length =
        [2, 2, 1]) := by
  rw [write_fiveBigRecords]
  simp

/-- Claim C2 (amended): on five records of serialized size 100KB with a
250KB byte ceiling and no token ceiling, the writer produces exactly two
files, the first holding 3 records and the second holding 2 — the byte
check runs after appending, so the third record still lands in the first
file. -/
theorem claimC2_amended :
    (write cfg250KB tcZero fiveBigRecords).files =
      [[bigRecord, bigRecord, bigRecord], [bigRecord, bigRecord]] ∧
    (write cfg250KB tcZero fiveBigRecords).files.map List.length = [3, 2] := by
  rw [write_fiveBigRecords]
  exact ⟨rfl, rfl⟩

/-- Claim C3: every flush (`writeBatchToFile`) empties the record list,
zeroes the byte counter and advances the file counter but leaves the
running token estimate unchanged; and across a whole `addContentOrSplit`
step the estimate is only ever left unchanged, set to half the record's
token count, or increased by the record's token count. -/
theorem claimC3_flush_frame : ∀ (cfg : WriteConfig) (s : WriterState),
    ((writeBatchToFile cfg s).currentResults = [] ∧
     (writeBatchToFile cfg s).currentSize = 0 ∧
     (writeBatchToFile cfg s).fileCounter = s.fileCounter + 1 ∧
     (writeBatchToFile cfg s).estimatedTokens = s.estimatedTokens) ∧
    ∀ (tc : String → Nat) (d : Json),
      (addContentOrSplit cfg tc s d).estimatedTokens = s.estimatedTokens ∨
      (addContentOrSplit cfg tc s d).estimatedTokens =
        tc (Json.stringify d) / 2 ∨
      (addContentOrSplit cfg tc s d).estimatedTokens =
        s.estimatedTokens + tc (Json.stringify d) := by
  intro cfg s
  refine ⟨⟨rfl, rfl, rfl, rfl⟩, ?_⟩
  intro tc d
  unfold addContentOrSplit
  rw [byteStep_estimatedTokens]
  unfold tokenStep
  cases h : isWithinTokenLimit tc (Json.stringify d) (tokenLimitOf cfg) with
  | none => simp [h]
  | some cnt =>
    have hc : cnt = tc (Json.stringify d) := isWithinTokenLimit_some h
    simp only [h]
    split
    · right; left
      simp [hc]
    · right; right
      simp [hc]

/-- Claim C4: with a configured token ceiling `t` and a numeric token
count `n` for the record, an overflowing addition first flushes the batch
only when it is non-empty, then sets the estimate to `n / 2` and appends
the record to the new batch; a non-overflowing addition appends the record
and adds `n` to the estimate. -/
theorem claimC4_token_split (cfg : WriteConfig) (tc : String → Nat)
    (s : WriterState) (d : Json) (t n : Nat)
    (hT : cfg.maxTokens = some t)
    (hn : isWithinTokenLimit tc (Json.stringify d) (tokenLimitOf cfg) =
      some n) :
    (s.estimatedTokens + n > t →
      ((s.currentResults = [] → tokenStep cfg tc s d =
          { s with estimatedTokens := n / 2,
                   currentResults := s.currentResults ++ [d] }) ∧
       (s.currentResults ≠ [] → tokenStep cfg tc s d =
          { writeBatchToFile cfg s with
              estimatedTokens := n / 2, currentResults := [d] }))) ∧
    (¬ (s.estimatedTokens + n > t) → tokenStep cfg tc s d =
      { s with currentResults := s.currentResults ++ [d],
               estimatedTokens := s.estimatedTokens + n }) := by
  have hover : tokenOverflow cfg s.estimatedTokens n =
      decide (s.estimatedTokens + n > t) := by
    unfold tokenOverflow
    rw [hT]
  constructor
  · intro hgt
    constructor
    · intro hemp
      unfold tokenStep
      simp only [hn, hover]
      rw [if_pos (by simpa using hgt)]
      rw [if_neg (by simp [hemp])]
    · intro hne
      unfold tokenStep
      simp only [hn, hover]
      rw [if_pos (by simpa using hgt)]
      rw [if_pos (by simpa [List.length_pos] using hne)]
      simp [writeBatchToFile]
  · intro hle
    unfold tokenStep
    simp only [hn, hover]
    rw [if_neg (by simpa using hle)]

theorem batchBytes_nil : batchBytes [] = 0 := rfl

theorem batchBytes_append_one (l : List Json) (d : Json) :
    batchBytes (l ++ [d]) = batchBytes l + getStringByteSize (Json.stringify d) := by
  simp [batchBytes]

/-- One `addContentOrSplit` step preserves the byte-accounting invariant. -/
theorem winv_addContentOrSplit (cfg : WriteConfig) (tc : String → Nat)
    {b m : Nat} (hb : cfg.maxBytes = some b) {s : WriterState} {d : Json}
    (hd : getStringByteSize (Json.stringify d) ≤ m)
    (h : WInv b m s) : WInv b m (addContentOrSplit cfg tc s d) := by
  obtain ⟨h1, h2, h3⟩ := h
  have hF : batchBytes (tokenStep cfg tc s d).currentResults ≤
        (tokenStep cfg tc s d).currentSize +
          getStringByteSize (Json.stringify d) ∧
      batchBytes (tokenStep cfg tc s d).currentResults ≤ b + m ∧
      ∀ f ∈ (tokenStep cfg tc s d).files, batchBytes f ≤ b + m := by
    unfold tokenStep
    cases hw : isWithinTokenLimit tc (Json.stringify d) (tokenLimitOf cfg) with
    | none =>
      simp only [hw]
      exact ⟨h1.trans (Nat.le_add_right _ _),
        (h1.trans h2).trans (Nat.le_add_right _ _), h3⟩
    | some cnt =>
      simp only [hw]
      split
      · split
        · -- flush, then the record alone forms the new batch
          simp only [writeBatchToFile, batchBytes_nil, List.nil_append]
          refine ⟨?_, ?_, ?_⟩
          · simp [batchBytes]
          · have : batchBytes [d] ≤ m := by simpa [batchBytes] using hd
            exact this.trans (Nat.le_add_left _ _)
          · intro f hf
            rcases List.mem_append.mp hf with hf | hf
            · exact h3 f hf
            · rcases List.mem_singleton.mp hf with rfl
              exact (h1.trans h2).trans (Nat.le_add_right _ _)
        · -- empty batch, no flush
          have hemp : s.currentResults = [] := by
            rename_i hlen
            simpa using hlen
          refine ⟨?_, ?_, h3⟩
          · simp [hemp, batchBytes]
          · have : batchBytes (s.currentResults ++ [d]) ≤ m := by
              simpa [hemp, batchBytes] using hd
            exact this.trans (Nat.le_add_left _ _)
      · -- no token overflow: record appended, sizes unchanged
        refine ⟨?_, ?_, h3⟩
        · rw [batchBytes_append_one]
          exact Nat.add_le_add h1 le_rfl
        · rw [batchBytes_append_one]
          exact Nat.add_le_add (h1.trans h2) hd
  obtain ⟨F1, F2, F4⟩ := hF
  unfold addContentOrSplit byteStep
  dsimp only
  split
  · -- byte-triggered flush
    rename_i hov
    refine ⟨by simp [writeBatchToFile, batchBytes_nil], by simp [writeBatchToFile], ?_⟩
    intro f hf
    simp only [writeBatchToFile] at hf
    rcases List.mem_append.mp hf with hf | hf
    · exact F4 f hf
    · rcases List.mem_singleton.mp hf with rfl
      exact F2
  · -- no flush: the incremented byte counter stays within the ceiling
    rename_i hov
    rw [byteOverflow, hb] at hov
    have hle : (tokenStep cfg tc s d).currentSize +
        getStringByteSize (Json.stringify d) ≤ b := by
      by_contra hgt
      exact hov (by simpa using Nat.lt_of_not_le (by omega))
    exact ⟨F1, hle, F4⟩

/-- The invariant is preserved along the whole input fold. -/
theorem winv_foldl (cfg : WriteConfig) (tc : String → Nat) {b m : Nat}
    (hb : cfg.maxBytes = some b) :
    ∀ (l : List Json) (s : WriterState), WInv b m s →
      (∀ d ∈ l, getStringByteSize (Json.stringify d) ≤ m) →
      WInv b m (List.foldl (addContentOrSplit cfg tc) s l) := by
  intro l
  induction l with
  | nil => intro s hs _; simpa using hs
  | cons d rest ih =>
    intro s hs hall
    rw [List.foldl_cons]
    exact ih _ (winv_addContentOrSplit cfg tc hb (hall d (by simp)) hs)
      (fun x hx => hall x (by simp [hx]))

/-- Every input record's size is bounded by `maxRecSize` of the inputs. -/
theorem le_maxRecSize {d : Json} : ∀ {inputs : List Json}, d ∈ inputs →
    getStringByteSize (Json.stringify d) ≤ maxRecSize inputs := by
  intro inputs
  induction inputs with
  | nil => intro h; simp at h
  | cons x rest ih =>
    intro h
    rcases List.mem_cons.mp h with rfl | h
    · simp [maxRecSize]
    · have := ih h
      simp only [maxRecSize] at this ⊢
      rw [List.map_cons, List.foldr_cons]
      omega

/-- Claim C5 (amended): with a configured byte ceiling `b`, the records of
any single written file total at most `b` plus one (the largest) record in
compact serialized bytes.  The literal claim fails because the file itself
is pretty-printed, which adds formatting overhead beyond this bound. -/
theorem claimC5_amended (cfg : WriteConfig) (tc : String → Nat)
    (inputs : List Json) (b : Nat) (hb : cfg.maxBytes = some b) :
    ∀ f ∈ (write cfg tc inputs).files,
      batchBytes f ≤ b + maxRecSize inputs := by
  have hinit : WInv b (maxRecSize inputs) initWriterState :=
    ⟨by simp [initWriterState, batchBytes_nil], by simp [initWriterState], by
      simp [initWriterState]⟩
  have hinv := winv_foldl cfg tc hb inputs initWriterState hinit
    (fun d hd => le_maxRecSize hd)
  rw [write_unfold]
  split
  · intro f hf
    simp only [writeBatchToFile] at hf
    rcases List.mem_append.mp hf with hf | hf
    · exact hinv.2.2 f hf
    · rcases List.mem_singleton.mp hf with rfl
      exact (hinv.1.trans hinv.2.1).trans (Nat.le_add_right _ _)
  · exact hinv.2.2

/-- Witness for the amended claim C5 at a concrete input. -/
theorem claimC5_witness :
    batchBytes [emptyObj] ≤ 10 + maxRecSize [emptyObj] :=
  claimC5_amended cfgTenBytes tcZero [emptyObj] 10 rfl [emptyObj] (by decide)

/-- Claim C5 (counterexample): with byte ceiling 10 and six records of
serialized size 2, the single written file's pretty-printed JSON
serialization has 38 bytes, exceeding the ceiling plus the size of one
additional record (10 + 2). -/
theorem claimC5_counterexample :
    (write cfgTenBytes tcZero (List.replicate 6 emptyObj)).files =
      [List.replicate 6 emptyObj] ∧
    getStringByteSize (Json.stringify emptyObj) = 2 ∧
    writtenContents (write cfgTenBytes tcZero (List.replicate 6 emptyObj)) =
      [prettyRecords (List.replicate 6 emptyObj)] ∧
    getStringByteSize (prettyRecords (List.replicate 6 emptyObj)) = 38 ∧
    ¬ (38 ≤ 10 + 2) := by decide

/-- Witness for claim C4: a concrete non-overflowing and a concrete
overflowing instance. -/
theorem claimC4_witness :
    (tokenStep cfgTokenOnly tcZero initWriterState emptyObj =
      { initWriterState with
          currentResults := initWriterState.currentResults ++ [emptyObj],
          estimatedTokens := initWriterState.estimatedTokens + 0 }) ∧
    (tokenStep cfgTiny tcZero
      { initWriterState with estimatedTokens := 5 } emptyObj =
      { { initWriterState with estimatedTokens := 5 } with
          estimatedTokens := 0 / 2,
          currentResults :=
            { initWriterState with estimatedTokens := 5 }.currentResults ++
              [emptyObj] }) := by
  constructor
  · exact (claimC4_token_split cfgTokenOnly tcZero initWriterState emptyObj
      1 0 rfl (by decide)).2 (by decide)
  · exact ((claimC4_token_split cfgTiny tcZero
      { initWriterState with estimatedTokens := 5 } emptyObj 1 0 rfl
      (by decide)).1 (by decide)).1 (by decide)

/-- Claim C6: a composite node whose canonical serialization is already in
the seen set contributes nothing (and leaves the seen set unchanged); two
byte-identical sibling sub-trees carrying Hello produce the fragment only
once, while a sibling differing in one field is still processed (its fresh
src is emitted, its already-seen Hello suppressed). -/
theorem claimC6_dedup :
    (∀ (v : Json) (seen : List String), v.isComposite = true →
      Json.stringify v ∈ seen →
      extractContentRecursively v seen = ([], seen)) ∧
    (extractContentRecursively
      (Json.arr (JsonList.cons helloNode (JsonList.cons helloNode
        JsonList.nil))) []).1 = ["Hello"] ∧
    (extractContentRecursively
      (Json.arr (JsonList.cons helloNode (JsonList.cons helloSrcNode
        JsonList.nil))) []).1 = ["Hello", "Image: u"] := by
  refine ⟨?_, by decide, by decide⟩
  intro v seen hc hm
  cases v with
  | arr xs =>
    unfold extractContentRecursively
    rw [if_pos hm]
  | obj fs =>
    unfold extractContentRecursively
    rw [if_pos hm]
  | null => simp [Json.isComposite] at hc
  | bool b => simp [Json.isComposite] at hc
  | num n => simp [Json.isComposite] at hc
  | str t => simp [Json.isComposite] at hc

/-- Witness for claim C6 at a concrete composite node and seen set. -/
theorem claimC6_witness :
    extractContentRecursively emptyObj [Json.stringify emptyObj] =
      ([], [Json.stringify emptyObj]) :=
  claimC6_dedup.1 emptyObj [Json.stringify emptyObj] rfl (by decide)

/-- Claim C7: on the object with text Hi, an href and a src, a fresh
extraction pass yields exactly the trimmed text, the text-labelled href
fragment and the Image-prefixed src fragment in that order; when the text
field is absent, the href label falls back to the literal Link. -/
theorem claimC7_scenario :
    (extractContentRecursively hiNode []).1 =
      ["Hi", "Hi: https://x.test", "Image: https://x.test/img.png"] ∧
    (extractContentRecursively linkOnlyNode []).1 =
      ["Link: https://y.test"] := by decide

/-- Claim C8: the extractor is a total function of the input value (it is
structurally recursive, hence terminates on every finite JSON value), and
every non-composite input — null or any other non-object, non-array
value — yields the empty fragment sequence with the seen set unchanged. -/
theorem claimC8_total (v : Json) (seen : List String)
    (h : v.isComposite = false) :
    extractContentRecursively v seen = ([], seen) := by
  cases v with
  | arr xs => simp [Json.isComposite] at h
  | obj fs => simp [Json.isComposite] at h
  | null => rfl
  | bool b => rfl
  | num n => rfl
  | str t => rfl

/-- Witness for claim C8 at concrete non-composite inputs. -/
theorem claimC8_witness :
    extractContentRecursively (Json.num 5) [] = ([], []) ∧
    extractContentRecursively Json.null ["x"] = ([], ["x"]) :=
  ⟨claimC8_total (Json.num 5) [] rfl, claimC8_total Json.null ["x"] rfl⟩

/-- Claim C10: when the token counter returns the sentinel, the record's
serialized byte length is still added to the byte counter although the
record is not appended (either the counter grows by exactly that length,
or the grown counter tripped the byte ceiling and the batch — without the
record — was flushed); concretely, a record exceeding both ceilings makes
`write` emit one file containing an empty JSON array and still advance
the file counter. -/
theorem claimC10_sentinel_bytes :
    (∀ (cfg : WriteConfig) (tc : String → Nat) (s : WriterState) (d : Json),
      isWithinTokenLimit tc (Json.stringify d) (tokenLimitOf cfg) = none →
      ((addContentOrSplit cfg tc s d).currentSize =
          s.currentSize + getStringByteSize (Json.stringify d) ∨
        (byteOverflow cfg (s.currentSize +
            getStringByteSize (Json.stringify d)) = true ∧
          (addContentOrSplit cfg tc s d).currentSize = 0 ∧
          (addContentOrSplit cfg tc s d).files =
            s.files ++ [s.currentResults] ∧
          (addContentOrSplit cfg tc s d).fileCounter = s.fileCounter + 1))) ∧
    (write cfgTiny tcBig [emptyObj]).files = [[]] ∧
    (write cfgTiny tcBig [emptyObj]).fileCounter = 2 ∧
    writtenContents (write cfgTiny tcBig [emptyObj]) = ["[]"] := by
  refine ⟨?_, by decide, by decide, by decide⟩
  intro cfg tc s d h
  have ht : tokenStep cfg tc s d = s := by
    unfold tokenStep
    rw [h]
  unfold addContentOrSplit byteStep
  rw [ht]
  dsimp only
  split
  · rename_i hov
    right
    exact ⟨hov, rfl, by simp [writeBatchToFile], rfl⟩
  · left
    rfl

/-- Witness for the universal part of claim C10 at a concrete input. -/
theorem claimC10_witness :
    (addContentOrSplit cfgTiny tcBig initWriterState emptyObj).currentSize =
        initWriterState.currentSize +
          getStringByteSize (Json.stringify emptyObj) ∨
      (byteOverflow cfgTiny (initWriterState.currentSize +
          getStringByteSize (Json.stringify emptyObj)) = true ∧
        (addContentOrSplit cfgTiny tcBig initWriterState
            emptyObj).currentSize = 0 ∧
        (addContentOrSplit cfgTiny tcBig initWriterState emptyObj).files =
          initWriterState.files ++ [initWriterState.currentResults] ∧
        (addContentOrSplit cfgTiny tcBig initWriterState
            emptyObj).fileCounter = initWriterState.fileCounter + 1) :=
  claimC10_sentinel_bytes.1 cfgTiny tcBig initWriterState emptyObj (by decide)

/-! Provenance invariant for claim C9: one extraction step grows the seen
set monotonically, every emitted fragment's origin value is fresh and gets
recorded, and no origin value is emitted twice. -/

theorem tstep_refl (seen : List String) : TStep seen [] seen :=
  ⟨fun _ h => h, by simp, by simp⟩

theorem tstep_grow (k : String) (seen : List String) :
    TStep seen [] (k :: seen) :=
  ⟨fun _ h => List.mem_cons_of_mem _ h, by simp, by simp⟩

theorem tstep_emit (o : Orig) (ok : Bool) (seen : List String) :
    TStep seen (emitStep o (Orig.value o) ok seen).1
      (emitStep o (Orig.value o) ok seen).2 := by
  unfold emitStep
  split
  · rename_i h
    refine ⟨fun x hx => List.mem_cons_of_mem _ hx, ?_, by simp⟩
    intro o2 ho2
    rcases List.mem_singleton.mp ho2 with rfl
    exact ⟨List.mem_cons_self _ _, h.2⟩
  · exact tstep_refl seen

theorem tstep_seq {a b c : List String} {os1 os2 : List Orig}
    (h1 : TStep a os1 b) (h2 : TStep b os2 c) : TStep a (os1 ++ os2) c := by
  obtain ⟨s1, v1, n1⟩ := h1
  obtain ⟨s2, v2, n2⟩ := h2
  refine ⟨fun x hx => s2 x (s1 x hx), ?_, ?_⟩
  · intro o ho
    rcases List.mem_append.mp ho with ho | ho
    · exact ⟨s2 _ (v1 o ho).1, (v1 o ho).2⟩
    · exact ⟨(v2 o ho).1, fun hin => (v2 o ho).2 (s1 _ hin)⟩
  · rw [List.map_append]
    refine List.Nodup.append n1 n2 ?_
    intro x hx1 hx2
    rcases List.mem_map.mp hx1 with ⟨o1, ho1, rfl⟩
    rcases List.mem_map.mp hx2 with ⟨o2, ho2, heq⟩
    exact (v2 o2 ho2).2 (heq ▸ (v1 o1 ho1).1)

theorem tstep_textPhaseT (f : Option Json) (seen : List String) :
    TStep seen (textPhaseT f seen).1 (textPhaseT f seen).2 := by
  unfold textPhaseT
  split
  · exact tstep_emit (Orig.otext (jsTrim _)) _ seen
  · exact tstep_refl seen

theorem tstep_hrefPhaseT (tf f : Option Json) (seen : List String) :
    TStep seen (hrefPhaseT tf f seen).1 (hrefPhaseT tf f seen).2 := by
  unfold hrefPhaseT
  split
  · exact tstep_emit (Orig.ohref (hrefLabel tf) _) _ seen
  · exact tstep_refl seen

theorem tstep_srcPhaseT (f : Option Json) (seen : List String) :
    TStep seen (srcPhaseT f seen).1 (srcPhaseT f seen).2 := by
  unfold srcPhaseT
  split
  · exact tstep_emit (Orig.osrc _) _ seen
  · exact tstep_refl seen

mutual

theorem tstep_extractTagged (v : Json) (seen : List String) :
    TStep seen (extractTagged v seen).1 (extractTagged v seen).2 := by
  cases v with
  | arr xs =>
    by_cases hmem : Json.stringify (Json.arr xs) ∈ seen
    · rw [extractTagged, if_pos hmem]
      exact tstep_refl seen
    · rw [extractTagged, if_neg hmem]
      exact tstep_seq (tstep_seq
        (tstep_grow (Json.stringify (Json.arr xs)) seen)
        (tstep_extractElemsT xs (Json.stringify (Json.arr xs) :: seen)))
        (tstep_extractElemsT xs
          (JsonList.extractElemsT xs (Json.stringify (Json.arr xs) :: seen)).2)
  | obj fs =>
    by_cases hmem : Json.stringify (Json.obj fs) ∈ seen
    · rw [extractTagged, if_pos hmem]
      exact tstep_refl seen
    · rw [extractTagged, if_neg hmem]
      exact tstep_seq (tstep_seq (tstep_seq (tstep_seq
        (tstep_grow (Json.stringify (Json.obj fs)) seen)
        (tstep_textPhaseT (JsonFields.lookup ("text") fs)
          (Json.stringify (Json.obj fs) :: seen)))
        (tstep_hrefPhaseT (JsonFields.lookup ("text") fs)
          (JsonFields.lookup ("href") fs)
          (textPhaseT (JsonFields.lookup ("text") fs)
            (Json.stringify (Json.obj fs) :: seen)).2))
        (tstep_srcPhaseT (JsonFields.lookup ("src") fs)
          (hrefPhaseT (JsonFields.lookup ("text") fs)
            (JsonFields.lookup ("href") fs)
            (textPhaseT (JsonFields.lookup ("text") fs)
              (Json.stringify (Json.obj fs) :: seen)).2).2))
        (tstep_extractValsT fs
          (srcPhaseT (JsonFields.lookup ("src") fs)
            (hrefPhaseT (JsonFields.lookup ("text") fs)
              (JsonFields.lookup ("href") fs)
              (textPhaseT (JsonFields.lookup ("text") fs)
                (Json.stringify (Json.obj fs) :: seen)).2).2).2)
  | null => exact tstep_refl seen
  | bool b => exact tstep_refl seen
  | num n => exact tstep_refl seen
  | str t => exact tstep_refl seen

theorem tstep_extractElemsT (xs : JsonList) (seen : List String) :
    TStep seen (JsonList.extractElemsT xs seen).1
      (JsonList.extractElemsT xs seen).2 := by
  cases xs with
  | nil => exact tstep_refl seen
  | cons x rest =>
    exact tstep_seq (tstep_extractTagged x seen)
      (tstep_extractElemsT rest (extractTagged x seen).2)

theorem tstep_extractValsT (fs : JsonFields) (seen : List String) :
    TStep seen (JsonFields.extractValsT fs seen).1
      (JsonFields.extractValsT fs seen).2 := by
  cases fs with
  | nil => exact tstep_refl seen
  | cons k v rest =>
    exact tstep_seq (tstep_extractTagged v seen)
      (tstep_extractValsT rest (extractTagged v seen).2)

end

/-! Erasure: the plain extractor is the tagged extractor with each origin
rendered to its fragment text. -/

theorem textPhase_eq_render (f : Option Json) (seen : List String) :
    textPhase f seen =
      ((textPhaseT f seen).1.map Orig.render, (textPhaseT f seen).2) := by
  unfold textPhase textPhaseT
  cases f with
  | none => rfl
  | some v =>
    cases v with
    | str t =>
      unfold emitStep
      dsimp only
      split_ifs <;> rfl
    | null => rfl
    | bool b => rfl
    | num n => rfl
    | arr xs => rfl
    | obj fs => rfl

theorem hrefPhase_eq_render (tf f : Option Json) (seen : List String) :
    hrefPhase tf f seen =
      ((hrefPhaseT tf f seen).1.map Orig.render, (hrefPhaseT tf f seen).2) := by
  unfold hrefPhase hrefPhaseT
  cases f with
  | none => rfl
  | some v =>
    cases v with
    | str h =>
      unfold emitStep
      dsimp only
      split_ifs <;> rfl
    | null => rfl
    | bool b => rfl
    | num n => rfl
    | arr xs => rfl
    | obj fs => rfl

theorem srcPhase_eq_render (f : Option Json) (seen : List String) :
    srcPhase f seen =
      ((srcPhaseT f seen).1.map Orig.render, (srcPhaseT f seen).2) := by
  unfold srcPhase srcPhaseT
  cases f with
  | none => rfl
  | some v =>
    cases v with
    | str u =>
      unfold emitStep
      dsimp only
      split_ifs <;> rfl
    | null => rfl
    | bool b => rfl
    | num n => rfl
    | arr xs => rfl
    | obj fs => rfl

mutual

theorem extract_eq_render (v : Json) (seen : List String) :
    extractContentRecursively v seen =
      ((extractTagged v seen).1.map Orig.render, (extractTagged v seen).2) := by
  cases v with
  | arr xs =>
    by_cases hmem : Json.stringify (Json.arr xs) ∈ seen
    · rw [extractContentRecursively, if_pos hmem, extractTagged, if_pos hmem]
      rfl
    · rw [extractContentRecursively, if_neg hmem, extractTagged, if_neg hmem]
      have e1 := elems_eq_render xs (Json.stringify (Json.arr xs) :: seen)
      have e2 := elems_eq_render xs
        (JsonList.extractElemsT xs (Json.stringify (Json.arr xs) :: seen)).2
      simp only [e1, e2, List.map_append]
  | obj fs =>
    by_cases hmem : Json.stringify (Json.obj fs) ∈ seen
    · rw [extractContentRecursively, if_pos hmem, extractTagged, if_pos hmem]
      rfl
    · rw [extractContentRecursively, if_neg hmem, extractTagged, if_neg hmem]
      have e1 := textPhase_eq_render (JsonFields.lookup ("text") fs)
        (Json.stringify (Json.obj fs) :: seen)
      have e2 := hrefPhase_eq_render (JsonFields.lookup ("text") fs)
        (JsonFields.lookup ("href") fs)
        (textPhaseT (JsonFields.lookup ("text") fs)
          (Json.stringify (Json.obj fs) :: seen)).2
      have e3 := srcPhase_eq_render (JsonFields.lookup ("src") fs)
        (hrefPhaseT (JsonFields.lookup ("text") fs)
          (JsonFields.lookup ("href") fs)
          (textPhaseT (JsonFields.lookup ("text") fs)
            (Json.stringify (Json.obj fs) :: seen)).2).2
      have e4 := vals_eq_render fs
        (srcPhaseT (JsonFields.lookup ("src") fs)
          (hrefPhaseT (JsonFields.lookup ("text") fs)
            (JsonFields.lookup ("href") fs)
            (textPhaseT (JsonFields.lookup ("text") fs)
              (Json.stringify (Json.obj fs) :: seen)).2).2).2
      simp only [e1, e2, e3, e4, List.map_append]
  | null => rfl
  | bool b => rfl
  | num n => rfl
  | str t => rfl

theorem elems_eq_render (xs : JsonList) (seen : List String) :
    JsonList.extractElems xs seen =
      ((JsonList.extractElemsT xs seen).1.map Orig.render,
        (JsonList.extractElemsT xs seen).2) := by
  cases xs with
  | nil => rfl
  | cons x rest =>
    rw [JsonList.extractElems, JsonList.extractElemsT]
    have e1 := extract_eq_render x seen
    have e2 := elems_eq_render rest (extractTagged x seen).2
    simp only [e1, e2, List.map_append]

theorem vals_eq_render (fs : JsonFields) (seen : List String) :
    JsonFields.extractVals fs seen =
      ((JsonFields.extractValsT fs seen).1.map Orig.render,
        (JsonFields.extractValsT fs seen).2) := by
  cases fs with
  | nil => rfl
  | cons k v rest =>
    rw [JsonFields.extractVals, JsonFields.extractValsT]
    have e1 := extract_eq_render v seen
    have e2 := vals_eq_render rest (extractTagged v seen).2
    simp only [e1, e2, List.map_append]

end

/-- Claim C9: in a fresh extraction pass the fragment list is exactly the
rendering of the provenance list, and no two provenance entries carry the
same origin value — no text value, href or src gives rise to two
fragments (the seen set is shared across the three kinds, so values are
globally distinct). -/
theorem claimC9_no_duplicate_origin (v : Json) :
    (extractContentRecursively v []).1 =
      (extractTagged v []).1.map Orig.render ∧
    ((extractTagged v []).1.map Orig.value).Nodup := by
  constructor
  · rw [extract_eq_render]
  · exact (tstep_extractTagged v []).2.2
